import Mathlib

/-!
Verification development for the late.js template engine
(`src/unnamed/part_000`, the latest revision, v0.3; `src/late.js` is an
earlier revision of the same code).

Strings are modelled as `List Char` (`Str`).  JavaScript regular-expression
matching is modelled by explicit matcher functions returning the index of the
first match together with the matched text, mirroring `String.match` /
`String.search` for the four concrete patterns the engine uses
(`openingTagRe`, `closingTagRe`, `tagRe`, `whiteRe`) with the default
delimiter pair `['\x7b\x7b', '\x7d\x7d']`.

A thrown JavaScript exception (e.g. reading a property of `undefined`) is
modelled by `Option`: `none` means the JS code would throw at that point.
`console` error reports are modelled by returning the reported errors as data.
-/

set_option maxRecDepth 100000

abbrev Str := List Char

/-- JS whitespace class `\s` restricted to the ASCII range (the engine's
templates and all inputs considered here are ASCII). -/
def isWs (c : Char) : Bool :=
  c == ' ' || c == '\t' || c == '\n' || c == '\r' || c == '\x0b' || c == '\x0c'

/-- Second half of the `Scanner` constructor's normalization:
`string.replace(/[\t\n]/g, "")`. -/
def stripTabsNewlines (s : Str) : Str :=
  s.filter (fun c => !(c == '\t' || c == '\n'))

/-- Worker for space collapsing; the flag records whether the previous
character was a space (in which case further spaces of the same run are
dropped). -/
def collapseGo : Bool → Str → Str
  | _, [] => []
  | prevSpace, c :: rest =>
    if c = ' ' then
      if prevSpace then collapseGo true rest
      else ' ' :: collapseGo true rest
    else c :: collapseGo false rest

/-- First half of the `Scanner` constructor's normalization:
`string.replace(/ +/g, " ")` — collapse each run of spaces to one space. -/
def collapseSpaces (s : Str) : Str := collapseGo false s

/-- The full normalization `fix` applied by the `Scanner` constructor:
collapse space runs, then delete tabs and newlines. -/
def normalizeSource (s : Str) : Str :=
  stripTabsNewlines (collapseSpaces s)

/-- Scanner state: the (normalized) source, the remaining `tail`, and the
number of consumed characters `pos`. -/
structure Scanner where
  string : Str
  tail : Str
  pos : Nat
deriving DecidableEq, Repr

/-- The `Scanner(string)` constructor: normalizes its input. -/
def Scanner.ofTemplate (s : Str) : Scanner :=
  let f := normalizeSource s
  ⟨f, f, 0⟩

/-- The `Scanner.prototype.eos` test. -/
def Scanner.eos (sc : Scanner) : Bool := sc.tail.isEmpty

/-- A matcher models a JS regular expression: given a string it yields the
start index of the first (leftmost) match and the matched text, or `none`
when the pattern matches nowhere. -/
abbrev Matcher := Str → Option (Nat × Str)

/-- The `Scanner.prototype.scan` method.  `this.tail.match(re)` is the
matcher applied to the tail; on success the code consumes `match[0].length`
characters from the front of the tail (the match index is ignored) and
returns `match[0]`. -/
def Scanner.scan (m : Matcher) (sc : Scanner) : Str × Scanner :=
  match m sc.tail with
  | none => ([], sc)
  | some (_, t) =>
    (t, ⟨sc.string, sc.tail.drop t.length, sc.pos + t.length⟩)

/-- The `Scanner.prototype.scanUntil` method, a switch on
`this.tail.search(re)` (the first-match index): `-1` consumes the whole
tail, `0` consumes nothing, otherwise everything before the match. -/
def Scanner.scanUntil (m : Matcher) (sc : Scanner) : Str × Scanner :=
  match m sc.tail with
  | none => (sc.tail, ⟨sc.string, [], sc.pos + sc.tail.length⟩)
  | some (0, _) => ([], sc)
  | some (i, _) => (sc.tail.take i, ⟨sc.string, sc.tail.drop i, sc.pos + i⟩)

/-- Index of the first occurrence of `pat` as a contiguous sublist. -/
def indexOfSub (pat : Str) : Str → Option Nat
  | [] => if pat.isEmpty then some 0 else none
  | s@(_ :: rest) =>
    if pat.isPrefixOf s then some 0
    else (indexOfSub pat rest).map (· + 1)

/-- Default opening delimiter. -/
def openDelim : Str := "\x7b\x7b".data

/-- Default closing delimiter. -/
def closeDelim : Str := "\x7d\x7d".data

/-- Matcher for `openingTagRe`, the pattern open-delimiter followed by
greedy whitespace: leftmost match starts at the first occurrence of the
delimiter and extends over the whitespace run after it. -/
def matchOpeningTag : Matcher := fun s =>
  (indexOfSub openDelim s).map
    (fun p => (p, openDelim ++ (s.drop (p + openDelim.length)).takeWhile isWs))

/-- Length of the whitespace run that ends just before position `p`. -/
def wsRunBefore (s : Str) (p : Nat) : Nat :=
  ((s.take p).reverse.takeWhile isWs).length

/-- Matcher for `closingTagRe`, the pattern greedy whitespace followed by
the close delimiter: the leftmost match starts at the beginning of the
whitespace run preceding the first occurrence of the delimiter. -/
def matchClosingTag : Matcher := fun s =>
  (indexOfSub closeDelim s).map (fun p =>
    let i := p - wsRunBefore s p
    (i, (s.drop i).take (p + closeDelim.length - i)))

/-- Matcher for `whiteRe` (`\s*`): always matches at index 0 with the
maximal whitespace run. -/
def matchWhite : Matcher := fun s => some (0, s.takeWhile isWs)

/-- Case-insensitive character comparison (the tag pattern carries the `i`
flag). -/
def lowerEq (a b : Char) : Bool := a.toLower == b.toLower

/-- Case-insensitive "starts with" test. -/
def ciStarts : Str → Str → Bool
  | [], _ => true
  | _ :: _, [] => false
  | a :: as, b :: bs => lowerEq a b && ciStarts as bs

/-- The default `tagReList` of the latest revision. -/
def builtinTagList : List Str :=
  [">", ">>", "%", "if", "html", "each", "get", "promise"].map String.data

/-- Matcher for `tagRe`, built from a tag list exactly as the source builds
it: the alternation of anchored `tag ` (tag plus one space) for each list
entry in order, then `^else`, then `^/`, case-insensitively.  All
alternatives are anchored, so a match can only start at index 0; the
original-case text is returned (the source later calls `.trim()` on it). -/
def matchTag (tagList : List Str) : Matcher := fun s =>
  match tagList.find? (fun t => ciStarts (t ++ [' ']) s) with
  | some t => some (0, s.take (t.length + 1))
  | none =>
    if ciStarts "else".data s then some (0, s.take 4)
    else if ciStarts "/".data s then some (0, s.take 1)
    else none

/-- A parse token.  The source uses a positional array
`[kind, payload, start, stop]` where section openers gain `token[4]`
(children) and `token[5]` (close offset) during nesting; absent array slots
are modelled with `Option`. -/
structure Tok where
  kind : Str
  payload : Str
  start : Nat
  stop : Nat
  children : Option (List Tok)
  closeOff : Option Nat

/-- Build a fresh 4-field token (fields 4 and 5 unset). -/
def mkTok (k p : Str) (a b : Nat) : Tok := ⟨k, p, a, b, none, none⟩

/-- JS `String.prototype.trim` (whitespace from both ends). -/
def trimWs (s : Str) : Str :=
  ((s.dropWhile isWs).reverse.dropWhile isWs).reverse

/-- Worker for `squashTokens`, carrying the current `lastToken`. -/
def squashGo : Tok → List Tok → List Tok
  | last, [] => [last]
  | last, t :: rest =>
    if last.kind = "text".data ∧ t.kind = "text".data then
      squashGo {last with payload := last.payload ++ t.payload, stop := t.stop} rest
    else last :: squashGo t rest

/-- The `squashTokens` pass: merge each run of consecutive `text` tokens
into its first member, concatenating payloads and taking the end field from
the later token. -/
def squashTokens : List Tok → List Tok
  | [] => []
  | t :: rest => squashGo t rest

/-- The section-opener set hard-coded in both `parseTemplate`'s switch and
`nestTokens`' first branch: `if`, `each`, `get`, `promise`. -/
def sectionKinds : List Str := ["if", "each", "get", "promise"].map String.data

/-- End-of-input unwinding for `nestTokens`: in the source the opener was
already appended to its parent collector and its `token[4]` aliases the
child collector, so an opener left unclosed still carries the children
collected so far (and no close offset). -/
def nestUnwind : List (Tok × List Tok) → List Tok → List Tok
  | [], acc => acc
  | (op, parentAcc) :: stack, acc =>
    nestUnwind stack (parentAcc ++ [{op with children := some acc}])

/-- The `nestTokens` walk.  The mutable `collector`/`sections` pair of the
source becomes a stack of (opener, parent collector) with the current
collector `acc`; a close token pops the stack, installs the children as
field 4 and its own start offset as field 5.  A close token with an empty
stack makes the source read `section[5]` of `undefined` — a thrown
TypeError, modelled as `none`. -/
def nestGo : List Tok → List (Tok × List Tok) → List Tok → Option (List Tok)
  | [], stack, acc => some (nestUnwind stack acc)
  | t :: rest, stack, acc =>
    if t.kind ∈ sectionKinds then nestGo rest ((t, acc) :: stack) []
    else if t.kind = "/".data then
      match stack with
      | [] => none
      | (op, parentAcc) :: stack' =>
        nestGo rest stack'
          (parentAcc ++ [{op with children := some acc, closeOff := some t.start}])
    else nestGo rest stack (acc ++ [t])

/-- The `nestTokens` pass. -/
def nestTokens (tokens : List Tok) : Option (List Tok) := nestGo tokens [] []

/-- Structural errors reported via `consoleMessage` during parsing. -/
inductive ParseErr
  | unclosedTag (pos : Nat)
  | mismatchedClose (sectionPayload : Str) (start : Nat)
  | orphanElse (value : Str) (start : Nat)
  | unclosedSection (payload : Str) (pos : Nat)
deriving DecidableEq, Repr

/-- Mutable state of the `parseTemplate` loop: the open-sections stack
(head = top), the token buffer, and the errors reported so far. -/
structure ParseSt where
  sections : List Tok
  tokens : List Tok
  errors : List ParseErr

/-- The tag type: `scan(tagRe).trim() || 'name'`. -/
def tagTypeOf (t : Str) : Str :=
  let ty := trimWs t
  if ty.isEmpty then "name".data else ty

/-- The code after `parseTemplate`'s while loop: report an unclosed section
if the stack is nonempty, then `nestTokens(squashTokens(tokens))`. -/
def parseFinish (pos : Nat) (st : ParseSt) : Option (List Tok × List ParseErr) :=
  let errs :=
    match st.sections with
    | [] => st.errors
    | top :: _ => st.errors ++ [ParseErr.unclosedSection top.payload pos]
  (nestTokens (squashTokens st.tokens)).map (fun nt => (nt, errs))

/-- One-to-one rendering of `parseTemplate`'s while loop.  Fuel bounds the
iteration count (each iteration that recurses has consumed at least the
two-character opening delimiter, so `string.length + 1` is always enough).
`none` models a thrown TypeError: a `/` token or an `else` token with an
empty sections stack makes the source read `openSection[0]` of
`undefined`. -/
def parseLoop (tagList : List Str) : Nat → Scanner → ParseSt →
    Option (List Tok × List ParseErr)
  | 0, _, _ => none
  | fuel + 1, sc, st =>
    if sc.eos then parseFinish sc.pos st
    else
      let start := sc.pos
      let (value, sc1) := sc.scanUntil matchOpeningTag
      let st1 :=
        if value.isEmpty then st
        else {st with tokens := st.tokens ++ [mkTok "text".data value start value.length]}
      let start1 := if value.isEmpty then start else start + value.length
      let (m, sc2) := sc1.scan matchOpeningTag
      if m.isEmpty then parseFinish sc2.pos st1
      else
        let (traw, sc3) := sc2.scan (matchTag tagList)
        let type := tagTypeOf traw
        let (_, sc4) := sc3.scan matchWhite
        let (pval, sc5) := sc4.scanUntil matchClosingTag
        let (c, sc6) := sc5.scan matchClosingTag
        let st2 :=
          if c.isEmpty then {st1 with errors := st1.errors ++ [ParseErr.unclosedTag sc6.pos]}
          else st1
        let token := mkTok type (pval.filter (fun ch => ch ≠ ' ')) start1 sc6.pos
        let st3 := {st2 with tokens := st2.tokens ++ [token]}
        if type ∈ sectionKinds then
          parseLoop tagList fuel sc6 {st3 with sections := token :: st3.sections}
        else if type = "/".data then
          match st3.sections with
          | [] => none
          | top :: rest =>
            let st4 :=
              if top.kind ≠ pval then
                {st3 with sections := rest,
                          errors := st3.errors ++ [ParseErr.mismatchedClose top.payload start1]}
              else {st3 with sections := rest}
            parseLoop tagList fuel sc6 st4
        else if type = "else".data then
          match st3.sections with
          | [] => none
          | top :: _ =>
            let st4 :=
              if top.kind ≠ "if".data then
                {st3 with errors := st3.errors ++ [ParseErr.orphanElse token.payload start1]}
              else st3
            parseLoop tagList fuel sc6 st4
        else
          parseLoop tagList fuel sc6 st3

/-- The `parseTemplate(name, template)` function of the latest revision.
An empty (falsy) template short-circuits to `[]`; otherwise the normalized
template is scanned by the loop.  `none` models a thrown exception escaping
`parseTemplate`. -/
def parseTemplate (tagList : List Str) (_nm : Str) (template : Str) :
    Option (List Tok × List ParseErr) :=
  if template.isEmpty then some ([], [])
  else
    let sc := Scanner.ofTemplate template
    parseLoop tagList (sc.string.length + 1) sc ⟨[], [], []⟩

/-- JavaScript values, restricted to the fragment the engine's rendering
path manipulates.  `NaN` and reference identity of objects are outside the
model (noted where relevant). -/
inductive JSVal where
  | undef
  | null
  | boolV (b : Bool)
  | numV (n : Int)
  | strV (s : Str)
  | objV (fields : List (Str × JSVal))
  | arrV (elems : List JSVal)

/-- JS truthiness on the modelled values (`!!v`). -/
def JSVal.truthy : JSVal → Bool
  | .undef => false
  | .null => false
  | .boolV b => b
  | .numV n => n ≠ 0
  | .strV s => !s.isEmpty
  | .objV _ => true
  | .arrV _ => true

/-- Nonempty all-digits test. -/
def isDigits (s : Str) : Bool := !s.isEmpty && s.all (·.isDigit)

/-- Decimal value of a digit string. -/
def digitsToNat (s : Str) : Nat := s.foldl (fun a c => a * 10 + (c.toNat - 48)) 0

/-- The `!isNaN(name)` guard, modelled for plain decimal integers with an
optional sign (the only numeric forms the templates at issue use). -/
def jsIsNumericStr (s : Str) : Bool :=
  match s with
  | '-' :: rest => isDigits rest
  | _ => isDigits s

/-- The `parseInt(name, 10)` call on a string passing `jsIsNumericStr`. -/
def parseIntDec (s : Str) : Int :=
  match s with
  | '-' :: rest => -(digitsToNat rest : Int)
  | _ => (digitsToNat s : Int)

/-- The `Context.prototype.lookupWithReserved` method.  The surrounding
context's `lookup` is abstracted as the function `lk`. -/
def Context.lookupWithReserved (lk : Str → JSVal) (nm : Str) : JSVal :=
  if nm = "undefined".data then JSVal.undef
  else if nm = "true".data then JSVal.boolV true
  else if nm = "false".data then JSVal.boolV false
  else if nm = "null".data then JSVal.null
  else if jsIsNumericStr nm then JSVal.numV (parseIntDec nm)
  else lk nm

/-- JS strict equality `===` on the modelled values.  Two distinct objects
or arrays compare by reference; the model returns `false` for them. -/
def jsStrictEq : JSVal → JSVal → Bool
  | .undef, .undef => true
  | .null, .null => true
  | .boolV a, .boolV b => a == b
  | .numV a, .numV b => a == b
  | .strV a, .strV b => a == b
  | _, _ => false

/-- JS `ToNumber` on the modelled values; `none` stands for `NaN`. -/
def jsToNumber : JSVal → Option Int
  | .undef => none
  | .null => some 0
  | .boolV b => some (if b then 1 else 0)
  | .numV n => some n
  | .strV s =>
    if s.isEmpty then some 0
    else if jsIsNumericStr s then some (parseIntDec s) else none
  | .objV _ => none
  | .arrV _ => none

/-- Lexicographic comparison of char lists (JS string relational
comparison). -/
def lexCompare : Str → Str → Ordering
  | [], [] => .eq
  | [], _ :: _ => .lt
  | _ :: _, [] => .gt
  | a :: as, b :: bs =>
    match compare a b with
    | .eq => lexCompare as bs
    | o => o

/-- JS abstract relational comparison: string/string is lexicographic,
otherwise both sides go through `ToNumber`; `none` (a `NaN` operand) makes
every relational operator false. -/
def jsCmp : JSVal → JSVal → Option Ordering
  | .strV a, .strV b => some (lexCompare a b)
  | a, b =>
    match jsToNumber a, jsToNumber b with
    | some x, some y => some (compare x y)
    | _, _ => none

/-- JS `>` on modelled values. -/
def jsGt (a b : JSVal) : Bool :=
  match jsCmp a b with
  | some .gt => true
  | _ => false

/-- JS `>=` on modelled values. -/
def jsGe (a b : JSVal) : Bool :=
  match jsCmp a b with
  | some .gt => true
  | some .eq => true
  | _ => false

/-- JS `<` on modelled values. -/
def jsLt (a b : JSVal) : Bool :=
  match jsCmp a b with
  | some .lt => true
  | _ => false

/-- JS `<=` on modelled values. -/
def jsLe (a b : JSVal) : Bool :=
  match jsCmp a b with
  | some .lt => true
  | some .eq => true
  | _ => false

/-- The `Writer.prototype.handleMultiPartIf` method.  First component: the
returned value, `none` standing for the implicit `undefined` return of the
default branch.  Second component: whether the default branch reported an
error via `consoleMessage`. -/
def Writer.handleMultiPartIf (lk : Str → JSVal) (parts : List Str) :
    Option Bool × Bool :=
  let p0 := Context.lookupWithReserved lk (parts.getD 0 [])
  let p2 := Context.lookupWithReserved lk (parts.getD 2 [])
  let op := parts.getD 1 []
  if op = "===".data then (some (jsStrictEq p0 p2), false)
  else if op = "!==".data then (some (!jsStrictEq p0 p2), false)
  else if op = ">".data then (some (jsGt p0 p2), false)
  else if op = ">=".data then (some (jsGe p0 p2), false)
  else if op = "<".data then (some (jsLt p0 p2), false)
  else if op = "<=".data then (some (jsLe p0 p2), false)
  else (none, true)

/-- Worker for `splitKeep`; fuel is the input length (one unit per consumed
character suffices because every separator is nonempty). -/
def splitKeepGo (seps : List Str) : Nat → Str → Str → List Str
  | _, cur, [] => [cur.reverse]
  | 0, cur, s => [cur.reverse ++ s]
  | fuel + 1, cur, s@(c :: rest) =>
    match seps.find? (fun sep => sep.isPrefixOf s) with
    | some sep => cur.reverse :: sep :: splitKeepGo seps fuel [] (s.drop sep.length)
    | none => splitKeepGo seps fuel (c :: cur) rest

/-- JS `String.prototype.split` on a separator-capturing alternation:
separators appear as their own list entries, alternatives are tried in
order at each position, scanning left to right. -/
def splitKeep (seps : List Str) (s : Str) : List Str :=
  splitKeepGo seps s.length [] s

/-- Separator list of the `if` handler's top-level split `/(&&|\|\|)/`. -/
def logicalSeps : List Str := ["&&", "||"].map String.data

/-- Separator list of the comparison split
`/(===|!==|==|!=|>=|<=|<|>)/`, in source order. -/
def compSeps : List Str := ["===", "!==", "==", "!=", ">=", "<=", "<", ">"].map String.data

/-- A slot of the `parts` array inside the `if` handler: a separator
string, a not-yet-visited sub-expression string, or the boolean-or-undefined
value written back over a visited sub-expression. -/
inductive Cell where
  | sepC (s : Str)
  | strC (s : Str)
  | valC (v : Option Bool)
deriving DecidableEq, Repr

/-- View the split result as cells (the source keeps plain strings and
distinguishes separators by comparing against `'&&'`/`'||'`). -/
def toCells (parts : List Str) : List Cell :=
  parts.map (fun p =>
    if p = "&&".data ∨ p = "||".data then Cell.sepC p else Cell.strC p)

/-- Evaluation of one non-separator part in the multi-part branch of the
`if` handler: split on the comparison operators; a single piece is the
truthiness of `lookupWithReserved`, three pieces go to
`handleMultiPartIf`. -/
def evalOperand (lk : Str → JSVal) (s : Str) : Option Bool :=
  let comp := splitKeep compSeps s
  if comp.length = 1 then
    some (Context.lookupWithReserved lk (comp.getD 0 [])).truthy
  else (Writer.handleMultiPartIf lk comp).1

/-- Value of the cell two places back (`parts[x-2]`); a missing slot is the
JS `undefined`. -/
def cellVal : Option Cell → Option Bool
  | some (Cell.valC v) => v
  | _ => none

/-- JS `a && b` on boolean-or-undefined values: a falsy left operand is
returned as is, a truthy one yields the right operand. -/
def jsAnd (a b : Option Bool) : Option Bool := if a = some true then b else a

/-- JS `a || b` on boolean-or-undefined values. -/
def jsOr (a b : Option Bool) : Option Bool := if a = some true then a else b

/-- One-to-one rendering of the multi-part do-while loop of
`tokenHandlers.if` (latest revision).  The source walks `parts` by index
`x`, reading only `parts[x]`, `parts[x-1]`, `parts[x-2]` and overwriting
`parts[x]`; here `p2`/`p1` carry the (already overwritten) cells at `x-2`
and `x-1` and the list argument is the suffix from `x`.  Returns the final
`apply`.  A `valC` head cannot arise from `toCells`; the source would
throw calling `.split` on a boolean there, and the model returns `false`. -/
def ifLoop (lk : Str → JSVal) : Option Cell → Option Cell → List Cell → Bool
  | _, _, [] => false
  | p2, p1, c :: rest =>
    match c with
    | Cell.sepC s =>
      if p1 = some (Cell.valC (some true)) ∧ s = "||".data then true
      else ifLoop lk p1 (some c) rest
    | Cell.valC _ => false
    | Cell.strC s =>
      let v0 := evalOperand lk s
      let v := if p1 = some (Cell.sepC "&&".data) then jsAnd (cellVal p2) v0 else v0
      match rest with
      | [] => v == some true
      | _ :: _ => ifLoop lk p1 (some (Cell.valC v)) rest

/-- The condition computed by `tokenHandlers.if` for a token payload: the
value of `apply` after the split-and-evaluate phase (before the `else`
search).  The single-part branch resolves through `context.lookup`
(abstracted as `lk`); the multi-part branch runs the do-while loop. -/
def ifCondition (lk : Str → JSVal) (payload : Str) : Bool :=
  let parts := splitKeep logicalSeps (payload.filter (fun ch => ch ≠ ' '))
  if parts.length = 1 then
    let comp := splitKeep compSeps (parts.getD 0 [])
    if comp.length = 1 then (lk (comp.getD 0 [])).truthy
    else (Writer.handleMultiPartIf lk comp).1 == some true
  else ifLoop lk none none (toCells parts)

/-- Modelled from the spec: the left-to-right fold of §4.6 — "the list of
sub-expression values and separators is then folded left-to-right: `a && b`
yields `a ∧ b`; `a || b` yields `a ∨ b` with short-circuit semantics …".
Worker over the (separator, sub-expression) tail. -/
def specFoldGo (lk : Str → JSVal) : Option Bool → List Str → Option Bool
  | acc, sep :: v :: rest =>
    if sep = "&&".data then specFoldGo lk (jsAnd acc (evalOperand lk v)) rest
    else specFoldGo lk (jsOr acc (evalOperand lk v)) rest
  | acc, _ => acc

/-- Modelled from the spec (§4.6): the flat left-to-right fold over the
split payload, for comparison with the code's `ifCondition`. -/
def specIfFold (lk : Str → JSVal) (payload : Str) : Option Bool :=
  let parts := splitKeep logicalSeps (payload.filter (fun ch => ch ≠ ' '))
  specFoldGo lk (evalOperand lk (parts.getD 0 [])) (parts.drop 1)

/-- A logical separator as data. -/
inductive SepTok where
  | andS
  | orS
deriving DecidableEq, Repr

/-- Separator text of a `SepTok`. -/
def SepTok.text : SepTok → Str
  | .andS => "&&".data
  | .orS => "||".data

/-- Cells for the `(separator, sub-expression)` tail of an alternating
split result. -/
def tailCells : List (SepTok × Str) → List Cell
  | [] => []
  | p :: rest => Cell.sepC p.1.text :: Cell.strC p.2 :: tailCells rest

/-- The alternating cell list `expr (sep expr)*` that the logical split
always produces. -/
def altCells (v0 : Str) (rest : List (SepTok × Str)) : List Cell :=
  Cell.strC v0 :: tailCells rest

/-- The evaluation the code actually implements (JS precedence): an
accumulator runs through each `&&`-chain; reaching a `||` separator with
the accumulator exactly `true` ends evaluation with `true`, otherwise the
chain restarts after the `||`; at the end the condition holds iff the last
accumulator is `true`. -/
def chainsEval (lk : Str → JSVal) : Option Bool → List (SepTok × Str) → Bool
  | acc, [] => acc == some true
  | acc, (SepTok.andS, v) :: rest => chainsEval lk (jsAnd acc (evalOperand lk v)) rest
  | acc, (SepTok.orS, v) :: rest =>
    if acc == some true then true else chainsEval lk (evalOperand lk v) rest

/-- JS property assignment on an object's field list: overwriting an
existing key keeps its position, a new key is appended. -/
def setField : List (Str × JSVal) → Str → JSVal → List (Str × JSVal)
  | [], k, v => [(k, v)]
  | (k', v') :: rest, k, v =>
    if k' = k then (k, v) :: rest else (k', v') :: setField rest k v

/-- JS `Array.isArray`. -/
def jsIsArray : JSVal → Bool
  | .arrV _ => true
  | _ => false

/-- JS `.length` of an array value (irrelevant `0` otherwise; the source
only reads it behind an `Array.isArray` test). -/
def jsArrayLength : JSVal → Nat
  | .arrV l => l.length
  | _ => 0

/-- The `late.tags` setter of the latest revision: `override` replaces the
module-level `tags` unconditionally; a value that is not a two-element
array additionally triggers a `consoleMessage` error report (second
component). -/
def tagsSet (_current : JSVal) (override : JSVal) : JSVal × Bool :=
  (override, !(jsIsArray override && jsArrayLength override == 2))

/-- The `late.tags` getter: returns the module-level `tags`. -/
def tagsGet (current : JSVal) : JSVal := current

/-- The default delimiter configuration `['\x7b\x7b', '\x7d\x7d']`. -/
def defaultTags : JSVal := JSVal.arrV [JSVal.strV openDelim, JSVal.strV closeDelim]

/-- A `Writer` cache slot: `cache.template` is set first; `cache.tokens`
holds the parse result, or stays unset (`none` inside the pair is the error
list of a completed parse, while a crashed `parseTemplate` leaves the
`tokens` property `undefined`, modelled by the outer `Option`). -/
structure TemplateEntry where
  template : Str
  tokens : Option (List Tok × List ParseErr)

instance : Inhabited TemplateEntry := ⟨⟨[], none⟩⟩

/-- The `Writer` template cache, a string-keyed JS object in insertion
order (re-assigning an existing key keeps its position, as `Object.keys`
does). -/
abbrev Cache := List (Str × TemplateEntry)

/-- JS property assignment on the cache object. -/
def cacheSet : Cache → Str → TemplateEntry → Cache
  | [], n, e => [(n, e)]
  | kv :: rest, n, e =>
    if kv.1 = n then (n, e) :: rest else kv :: cacheSet rest n e

/-- JS property read on the cache object (`undefined` is `none`). -/
def cacheGet : Cache → Str → Option TemplateEntry
  | [], _ => none
  | kv :: rest, n => if kv.1 = n then some kv.2 else cacheGet rest n

/-- The `Writer.prototype.parse` method: assign a fresh object under
`name`, set its `template`, then set its `tokens` to the `parseTemplate`
result.  Even when `parseTemplate` throws, the cache slot has already been
assigned (with `tokens` still `undefined`). -/
def Writer.parse (tagList : List Str) (cache : Cache) (nm template : Str) : Cache :=
  cacheSet cache nm ⟨template, parseTemplate tagList nm template⟩

/-- The `Writer.prototype.exists` method: `this.cache[name] !== undefined`. -/
def Writer.templateExists (cache : Cache) (nm : Str) : Bool :=
  (cacheGet cache nm).isSome

/-- The `Writer.prototype.listTemplates` method: `Object.keys(this.cache)`. -/
def Writer.listTemplates (cache : Cache) : List Str :=
  cache.map (fun p => p.1)

/-- A handler table for `renderTokens`: the token-kind keyed object
`tokenHandlers`.  A handler receives the token and the context (of
arbitrary type `γ`, standing for the `(context, writer)` pair) and returns
a string or `undefined`. -/
abbrev HandlerTable (γ : Type) := Str → Option (Tok → γ → Option Str)

/-- The `Writer.prototype.renderTokens` loop: for each token, if a handler
is registered under its kind, call it and append the response unless it is
`undefined`; tokens without a registered handler are skipped silently. -/
def Writer.renderTokens {γ : Type} (handlers : HandlerTable γ)
    (tokens : List Tok) (ctx : γ) : Str :=
  tokens.foldl
    (fun buffer token =>
      match handlers token.kind with
      | none => buffer
      | some h =>
        match h token ctx with
        | none => buffer
        | some resp => buffer ++ resp)
    []

/-- A handler table containing only the `text` handler
(`tokenHandlers.text = function(token) { return token[1]; }`), enough to
render templates whose parse tree is pure text. -/
def textOnlyHandlers : HandlerTable Unit := fun k =>
  if k = "text".data then some (fun token _ => some token.payload) else none

/-- One element step of the array branch of `tokenHandlers.each`.  JS
`typeof value[x] === 'object'` holds for plain objects, arrays and `null`.
An object element has `$index` written onto it in place (the pushed view is
the same, now mutated, element); `null` makes `value[x].$index = x` throw
(modelled `none`); a property write on an array element is outside the
model (the element is passed through unchanged); any other element is
wrapped in a fresh `{$index, $value}` object, the caller's element
untouched.  Result: (view pushed for the iteration, element as left in the
caller's array). -/
def eachArrayStep (x : Nat) : JSVal → Option (JSVal × JSVal)
  | .null => none
  | .objV fs =>
    let v' := JSVal.objV (setField fs "$index".data (JSVal.numV x))
    some (v', v')
  | .arrV es => some (JSVal.arrV es, JSVal.arrV es)
  | v => some (JSVal.objV [("$index".data, JSVal.numV x), ("$value".data, v)], v)

/-- The `for` loop of the array branch of `tokenHandlers.each`, collecting
the pushed views and the final state of the caller's array.  `none` models
the loop throwing (on a `null` element). -/
def eachArrayGo (x : Nat) : List JSVal → Option (List JSVal × List JSVal)
  | [] => some ([], [])
  | v :: rest =>
    match eachArrayStep x v with
    | none => none
    | some (apply, v') =>
      match eachArrayGo (x + 1) rest with
      | none => none
      | some (applies, rest') => some (apply :: applies, v' :: rest')

/-- The array branch of `tokenHandlers.each` applied to the looked-up array
value: the in-place mutation of the caller's array is modelled by returning
the array's final element list alongside the per-iteration views. -/
def eachArrayViews (elems : List JSVal) : Option (List JSVal × List JSVal) :=
  eachArrayGo 0 elems

/-- Lookup over an empty view: every name resolves to `undefined` (models
`context.lookup` when the view is empty and there is no parent). -/
def emptyLookup : Str → JSVal := fun _ => JSVal.undef

/-- Matcher for a literal-text regular expression: first occurrence of the
literal, matched text the literal itself. -/
def matchLit (pat : Str) : Matcher := fun s =>
  (indexOfSub pat s).map (fun p => (p, pat))

/-- The comparison operators `handleMultiPartIf` recognizes. -/
def recognizedOps : List Str :=
  ["===", "!==", ">", ">=", "<", "<="].map String.data

/-- Concatenation of a list of strings. -/
def concatStrs (l : List Str) : Str := l.foldr (fun a b => a ++ b) []

/-- The per-token contributions of `renderTokens`: tokens with no
registered handler are dropped, a handler's `undefined` response
contributes the empty string. -/
def renderedList {γ : Type} (handlers : HandlerTable γ) (tokens : List Tok)
    (ctx : γ) : List Str :=
  tokens.filterMap (fun t => (handlers t.kind).map (fun h => (h t ctx).getD []))

mutual

/-- Checks that child lists appear only on section-kind tokens, at every
depth of a token tree. -/
def Tok.wellSectioned : Tok → Bool
  | ⟨_, _, _, _, none, _⟩ => true
  | ⟨k, _, _, _, some l, _⟩ => decide (k ∈ sectionKinds) && Tok.listWellSectioned l

/-- List version of `Tok.wellSectioned`. -/
def Tok.listWellSectioned : List Tok → Bool
  | [] => true
  | t :: r => Tok.wellSectioned t && Tok.listWellSectioned r

end

/-- Indexed map starting at a given index. -/
def mapWithIndex {α β : Type} (f : Nat → α → β) : Nat → List α → List β
  | _, [] => []
  | x, v :: rest => f x v :: mapWithIndex f (x + 1) rest

/-- Elements of the caller's array after the `each` array loop: an object
element has `$index` merged in place, everything else is untouched. -/
def eachElemAfter (x : Nat) : JSVal → JSVal
  | .objV fs => .objV (setField fs "$index".data (JSVal.numV x))
  | v => v

/-- The view pushed for one `each` array iteration: the (mutated) object
element itself, or the fresh `{$index, $value}` wrapper. -/
def eachViewOf (x : Nat) : JSVal → JSVal
  | .objV fs => .objV (setField fs "$index".data (JSVal.numV x))
  | v => .objV [("$index".data, JSVal.numV x), ("$value".data, v)]

/-- Elements on which the `each` array loop is outside the model's scope:
`null` (the loop throws) and nested arrays (the loop writes a property the
model cannot represent). -/
def JSVal.isNullOrArray : JSVal → Bool
  | .null => true
  | .arrV _ => true
  | _ => false

/-- Is the value a plain object? -/
def JSVal.isObjV : JSVal → Bool
  | .objV _ => true
  | _ => false

/-- The tag list after `late.addTokenHandler('foo', fn)`: the source pushes
the new name onto `tagReList` and rebuilds `tagRe` from it. -/
def fooTagList : List Str := builtinTagList ++ ["foo".data]

/-- Per-token contribution to the `renderTokens` buffer. -/
def handlerContribution {γ : Type} (handlers : HandlerTable γ) (ctx : γ)
    (token : Tok) : Str :=
  match handlers token.kind with
  | none => []
  | some h => (h token ctx).getD []

/-- Two boolean-or-undefined values the `if` loop cannot tell apart: it
only ever tests them against exactly `true`. -/
def valSim (x y : Option Bool) : Prop := (x = some true) ↔ (y = some true)

/-- Cells the `if` loop cannot tell apart. -/
def cellSim : Cell → Cell → Prop
  | Cell.valC x, Cell.valC y => valSim x y
  | Cell.sepC s, Cell.sepC s2 => s = s2
  | Cell.strC s, Cell.strC s2 => s = s2
  | _, _ => False

/-- `cellSim` lifted to the optional window slots. -/
def ocellSim : Option Cell → Option Cell → Prop
  | some c, some c' => cellSim c c'
  | none, none => True
  | _, _ => False

theorem cacheGet_cacheSet (c : Cache) (n : Str) (e : TemplateEntry) :
    cacheGet (cacheSet c n e) n = some e := by
  induction c with
  | nil => simp [cacheSet, cacheGet]
  | cons kv rest ih =>
    by_cases h : kv.1 = n
    · simp [cacheSet, cacheGet, h]
    · simp [cacheSet, cacheGet, h, ih]

theorem mem_map_fst_cacheSet (c : Cache) (n : Str) (e : TemplateEntry) :
    n ∈ (cacheSet c n e).map (fun p => p.1) := by
  induction c with
  | nil => simp [cacheSet]
  | cons kv rest ih =>
    by_cases h : kv.1 = n
    · simp [cacheSet, h]
    · simp only [cacheSet, h, if_false, List.map_cons, List.mem_cons]
      right
      simpa using ih

/-- C1: the latest revision's `parseTemplate` does throw past the API
boundary.  On the template consisting of the single unopened close tag
`/if`, the `'/'` switch branch pops the empty sections stack, reports
"Unopened section", and then dereferences `openSection[0]` on `undefined`:
a TypeError that propagates out of `parseTemplate`, `Writer.parse` and
`late.parse`.  The spec's error policy ("Reported; parsing continues; …
must not crash the process") is the evident intent — the code even guards
`if (!openSection)` one line earlier — so this is a code bug, witnessed
here by evaluating the model at the failing input. -/
theorem parse_unopened_section_throws :
    parseTemplate builtinTagList "t".data "\x7b\x7b/if\x7d\x7d".data = none := by
  rfl

/-- C3 counterexample: on the payload `true||false&&false` the code's
condition (`ifCondition`, the value of `apply` in `tokenHandlers.if`) is
`true`, while the flat left-to-right fold described by the spec
(`specIfFold`, which evaluates `((true ∨ false) ∧ false)`) is `false` —
so with this payload the code renders the `if` body although the claimed
fold would not.  The lookup function is irrelevant (all operands are
reserved literals). -/
theorem if_flat_fold_counterexample :
    ifCondition emptyLookup "true||false&&false".data = true ∧
    specIfFold emptyLookup "true||false&&false".data = some false :=
  ⟨rfl, rfl⟩

/-- C4 counterexample: for the source `"a \t b"` (space, tab, space between
the words) the parse of the source and the parse of its normalization
differ, and so do the rendered strings: normalization collapses the space
runs first and deletes the tab second, so the double normalization of the
claim produces `"a b"` while a single one produces `"a  b"` — the
Scanner's input normalization is not idempotent. -/
theorem normalize_changes_rendering :
    parseTemplate builtinTagList "t".data "a \t b".data =
      some ([mkTok "text".data "a  b".data 0 4], []) ∧
    parseTemplate builtinTagList "t".data (normalizeSource "a \t b".data) =
      some ([mkTok "text".data "a b".data 0 3], []) ∧
    Writer.renderTokens textOnlyHandlers [mkTok "text".data "a  b".data 0 4] () ≠
      Writer.renderTokens textOnlyHandlers [mkTok "text".data "a b".data 0 3] () :=
  ⟨rfl, rfl, by decide⟩

/-- C9 counterexample: an array element `null` satisfies the source's
`typeof value[x] === 'object'` test, so `tokenHandlers.each` executes
`value[x].$index = x` on `null` and throws a TypeError instead of wrapping
the element in a fresh `{$index, $value}` object. -/
theorem each_null_element_throws :
    eachArrayViews [JSVal.null] = none := rfl

/-- C5 counterexample: `Scanner.scan` is driven by `tail.match(re)`, which
finds a match anywhere in the tail.  With a pattern matching the literal
`b` and tail `abc`, the match is at index 1 — strictly later than the
start — yet `scan` does not return the empty string and leave the state
unchanged: it returns the matched text and consumes one character off the
front of the tail. -/
theorem scan_later_match_consumes :
    matchLit "b".data "abc".data = some (1, "b".data) ∧
    Scanner.scan (matchLit "b".data) ⟨"abc".data, "abc".data, 0⟩ ≠
      (([] : Str), ⟨"abc".data, "abc".data, 0⟩) ∧
    Scanner.scan (matchLit "b".data) ⟨"abc".data, "abc".data, 0⟩ =
      ("b".data, ⟨"abc".data, "bc".data, 1⟩) :=
  ⟨rfl, by decide, rfl⟩

/-- C5 amended: `scan` consumes exactly when the pattern matches somewhere
in the tail.  When the match is at the start, it consumes the matched text
and returns it (the claim's first half); when the pattern matches nowhere,
it returns the empty string without advancing (the claim's second half
restricted to no-match); but when the pattern matches only strictly later,
`scan` still returns the matched text and shifts the scanner by the
match's length measured from the front of the tail. -/
theorem scan_spec (m : Matcher) (sc : Scanner) :
    (m sc.tail = none → Scanner.scan m sc = ([], sc)) ∧
    (∀ i t, m sc.tail = some (i, t) →
      Scanner.scan m sc =
        (t, ⟨sc.string, sc.tail.drop t.length, sc.pos + t.length⟩)) ∧
    (∀ t rest, m sc.tail = some (0, t) → sc.tail = t ++ rest →
      Scanner.scan m sc = (t, ⟨sc.string, rest, sc.pos + t.length⟩)) := by
  refine ⟨?_, ?_, ?_⟩
  · intro h
    simp [Scanner.scan, h]
  · intro i t h
    simp [Scanner.scan, h]
  · intro t rest h hp
    have h2 : Scanner.scan m sc =
        (t, ⟨sc.string, sc.tail.drop t.length, sc.pos + t.length⟩) := by
      simp [Scanner.scan, h]
    rw [h2, hp, List.drop_left]

theorem scan_spec_witness :
    matchLit "ab".data "abc".data = some (0, "ab".data) ∧
    "abc".data = "ab".data ++ "c".data ∧
    Scanner.scan (matchLit "ab".data) ⟨"abc".data, "abc".data, 0⟩ =
      ("ab".data, ⟨"abc".data, "c".data, 0 + ("ab".data).length⟩) :=
  ⟨rfl, rfl,
    (scan_spec (matchLit "ab".data) ⟨"abc".data, "abc".data, 0⟩).2.2
      "ab".data "c".data rfl rfl⟩

/-- C6 counterexample: assigning the one-element array `['a']` to `tags`
reports an error (second component `true`) but does not leave the pair
unchanged — the subsequent read returns the one-element array, not the
previous two-element pair. -/
theorem tags_setter_overwrites :
    (tagsSet defaultTags (JSVal.arrV [JSVal.strV "a".data])).2 = true ∧
    jsArrayLength (tagsGet (tagsSet defaultTags (JSVal.arrV [JSVal.strV "a".data])).1) = 1 ∧
    jsArrayLength (tagsGet defaultTags) = 2 :=
  ⟨rfl, rfl, rfl⟩

/-- C6 amended: for every value that is not a two-element array the setter
reports an error and nevertheless assigns the value — there is no early
return — so a subsequent read of `tags` yields the invalid value. -/
theorem tags_setter_reports_and_assigns (cur v : JSVal)
    (h : (jsIsArray v && jsArrayLength v == 2) = false) :
    tagsSet cur v = (v, true) ∧ tagsGet (tagsSet cur v).1 = v := by
  simp [tagsSet, tagsGet, h]

theorem tags_setter_reports_and_assigns_witness :
    (jsIsArray (JSVal.arrV [JSVal.strV "a".data]) &&
      jsArrayLength (JSVal.arrV [JSVal.strV "a".data]) == 2) = false ∧
    tagsSet defaultTags (JSVal.arrV [JSVal.strV "a".data]) =
      (JSVal.arrV [JSVal.strV "a".data], true) :=
  ⟨rfl, (tags_setter_reports_and_assigns defaultTags _ (by rfl)).1⟩

/-- C8: `Writer.parse` assigns the cache slot before parsing can fail, so
after `parse(name, source)` the name exists in the cache and is listed by
`listTemplates` — for every prior cache state and every source, including
the empty source (the slot holds `{template, tokens: []}`) and sources on
which parsing reports errors or even throws (the slot then lacks a `tokens`
value but is still a defined object). -/
theorem parse_caches_name (tagList : List Str) (cache : Cache) (nm template : Str) :
    Writer.templateExists (Writer.parse tagList cache nm template) nm = true ∧
    nm ∈ Writer.listTemplates (Writer.parse tagList cache nm template) := by
  constructor
  · simp [Writer.templateExists, Writer.parse, cacheGet_cacheSet]
  · simpa [Writer.listTemplates, Writer.parse] using
      mem_map_fst_cacheSet cache nm ⟨template, parseTemplate tagList nm template⟩

theorem renderTokens_fold_concat {γ : Type} (handlers : HandlerTable γ) (ctx : γ) :
    ∀ (tokens : List Tok) (b : Str),
      List.foldl
        (fun buffer token =>
          match handlers token.kind with
          | none => buffer
          | some h =>
            match h token ctx with
            | none => buffer
            | some resp => buffer ++ resp)
        b tokens
      = b ++ concatStrs (renderedList handlers tokens ctx) := by
  intro tokens
  induction tokens with
  | nil => intro b; simp [renderedList, concatStrs]
  | cons t ts ih =>
    intro b
    simp only [List.foldl_cons, ih]
    cases hh : handlers t.kind with
    | none => simp [renderedList, hh, concatStrs]
    | some h =>
      cases hr : h t ctx with
      | none => simp [renderedList, hh, hr, concatStrs]
      | some resp => simp [renderedList, hh, hr, concatStrs, List.append_assoc]

/-- C10: `renderTokens` silently skips every token whose kind has no entry
in the handler table (for instance an `else` left outside an `if` section):
no exception is possible and the result is exactly the concatenation of the
handler responses of the tokens that do have a handler (an `undefined`
response contributing the empty string). -/
theorem renderTokens_skips_unregistered {γ : Type} (handlers : HandlerTable γ)
    (tokens : List Tok) (ctx : γ) :
    Writer.renderTokens handlers tokens ctx =
      concatStrs (renderedList handlers tokens ctx) := by
  simpa [Writer.renderTokens] using renderTokens_fold_concat handlers ctx tokens []

theorem mem_collapseGo {c : Char} : ∀ (s : Str) (b : Bool), c ∈ collapseGo b s → c ∈ s := by
  intro s
  induction s with
  | nil => intro b h; simp [collapseGo] at h
  | cons a rest ih =>
    intro b h
    by_cases ha : a = ' '
    · subst ha
      cases b with
      | true =>
        simp only [collapseGo, if_true, reduceIte] at h
        exact List.mem_cons_of_mem _ (ih true h)
      | false =>
        simp only [collapseGo, reduceIte] at h
        rcases List.mem_cons.mp h with h1 | h1
        · exact h1 ▸ List.mem_cons_self _ _
        · exact List.mem_cons_of_mem _ (ih true h1)
    · simp only [collapseGo, ha, if_false, reduceIte] at h
      rcases List.mem_cons.mp h with h1 | h1
      · exact h1 ▸ List.mem_cons_self _ _
      · exact List.mem_cons_of_mem _ (ih false h1)

theorem collapseGo_idem : ∀ (s : Str) (b : Bool),
    collapseGo b (collapseGo b s) = collapseGo b s := by
  intro s
  induction s with
  | nil => intro b; rfl
  | cons a rest ih =>
    intro b
    by_cases ha : a = ' '
    · subst ha
      cases b with
      | true => simpa [collapseGo] using ih true
      | false => simp [collapseGo, ih true]
    · simp [collapseGo, ha, ih false]

theorem strip_eq_self_of_noTN (s : Str) (h : ∀ c ∈ s, ¬(c = '\t' ∨ c = '\n')) :
    stripTabsNewlines s = s := by
  unfold stripTabsNewlines
  rw [List.filter_eq_self]
  intro a ha
  have h2 := h a ha
  push_neg at h2
  simp [h2.1, h2.2]

theorem normalizeSource_idem (s : Str) (h : ∀ c ∈ s, ¬(c = '\t' ∨ c = '\n')) :
    normalizeSource (normalizeSource s) = normalizeSource s := by
  have hc : ∀ c ∈ collapseSpaces s, ¬(c = '\t' ∨ c = '\n') := by
    intro c hm
    exact h c (mem_collapseGo _ _ hm)
  have h1 : stripTabsNewlines (collapseSpaces s) = collapseSpaces s :=
    strip_eq_self_of_noTN _ hc
  have h2 : normalizeSource s = collapseSpaces s := by
    unfold normalizeSource
    exact h1
  rw [h2]
  unfold normalizeSource collapseSpaces
  rw [collapseGo_idem s false]
  exact h1

/-- C4 amended: rendering a source is equivalent to rendering its
normalization provided the source contains no tabs and no newlines (then
the normalization is just space-run collapsing, which is idempotent, and
the two parses coincide token for token, hence render identically).  For
sources with a tab or newline between spaces the equivalence fails — see
the counterexample — because the `Scanner` collapses space runs before
deleting tab/newline characters, so the deletion can create a fresh
two-space run that a second normalization would collapse. -/
theorem parse_agrees_with_normalized_of_no_tabs (tagList : List Str) (nm s : Str)
    (h : ∀ c ∈ s, ¬(c = '\t' ∨ c = '\n')) :
    parseTemplate tagList nm s = parseTemplate tagList nm (normalizeSource s) := by
  by_cases hs : s.isEmpty
  · have hnil : s = [] := by rwa [List.isEmpty_iff] at hs
    subst hnil
    rfl
  · by_cases h2 : (normalizeSource s).isEmpty
    · have hnil : normalizeSource s = [] := by rwa [List.isEmpty_iff] at h2
      unfold parseTemplate
      simp [hs, h2, Scanner.ofTemplate, hnil, parseLoop, parseFinish, Scanner.eos,
        squashTokens, nestTokens, nestGo, nestUnwind]
    · have hi := normalizeSource_idem s h
      unfold parseTemplate
      simp only [hs, h2, if_false, Scanner.ofTemplate, Bool.false_eq_true, reduceIte]
      rw [hi]

theorem parse_agrees_with_normalized_of_no_tabs_witness :
    (∀ c ∈ "a  b".data, ¬(c = '\t' ∨ c = '\n')) ∧
    parseTemplate builtinTagList "t".data "a  b".data =
      parseTemplate builtinTagList "t".data (normalizeSource "a  b".data) :=
  ⟨by decide, parse_agrees_with_normalized_of_no_tabs builtinTagList "t".data "a  b".data (by decide)⟩

theorem wellSectioned_of_none (t : Tok) (h : t.children = none) :
    Tok.wellSectioned t = true := by
  obtain ⟨k, p, a, b, c, o⟩ := t
  simp only at h
  subst h
  simp [Tok.wellSectioned]

theorem listWellSectioned_cons (t : Tok) (r : List Tok) :
    Tok.listWellSectioned (t :: r) = (Tok.wellSectioned t && Tok.listWellSectioned r) := by
  simp [Tok.listWellSectioned]

theorem listWellSectioned_append (a b : List Tok) :
    Tok.listWellSectioned (a ++ b) =
      (Tok.listWellSectioned a && Tok.listWellSectioned b) := by
  induction a with
  | nil => simp [Tok.listWellSectioned]
  | cons t r ih => simp [listWellSectioned_cons, ih, Bool.and_assoc]

theorem wellSectioned_section (k p : Str) (a b : Nat) (l : List Tok) (o : Option Nat)
    (hk : k ∈ sectionKinds) (hl : Tok.listWellSectioned l = true) :
    Tok.wellSectioned ⟨k, p, a, b, some l, o⟩ = true := by
  simp [Tok.wellSectioned, hk, hl]

theorem nestUnwind_ws : ∀ (stack : List (Tok × List Tok)) (acc : List Tok),
    (∀ pr ∈ stack, pr.1.kind ∈ sectionKinds ∧ Tok.listWellSectioned pr.2 = true) →
    Tok.listWellSectioned acc = true →
    Tok.listWellSectioned (nestUnwind stack acc) = true := by
  intro stack
  induction stack with
  | nil =>
    intro acc _ h2
    simpa [nestUnwind] using h2
  | cons pr rest ih =>
    intro acc h1 h2
    obtain ⟨op, parentAcc⟩ := pr
    obtain ⟨hk, hp⟩ := h1 _ (List.mem_cons_self _ _)
    simp only [nestUnwind]
    apply ih
    · intro q hq
      exact h1 q (List.mem_cons_of_mem _ hq)
    · rw [listWellSectioned_append]
      obtain ⟨k, p, a, b, c, o⟩ := op
      simp only at hk hp
      rw [hp]
      simp [listWellSectioned_cons, Tok.listWellSectioned,
        wellSectioned_section k p a b acc o hk h2]

theorem nestGo_ws : ∀ (input : List Tok) (stack : List (Tok × List Tok)) (acc out : List Tok),
    (∀ t ∈ input, t.children = none) →
    (∀ pr ∈ stack, pr.1.kind ∈ sectionKinds ∧ Tok.listWellSectioned pr.2 = true) →
    Tok.listWellSectioned acc = true →
    nestGo input stack acc = some out →
    Tok.listWellSectioned out = true := by
  intro input
  induction input with
  | nil =>
    intro stack acc out _ h2 h3 h4
    simp only [nestGo, Option.some_inj] at h4
    subst h4
    exact nestUnwind_ws stack acc h2 h3
  | cons t rest ih =>
    intro stack acc out h1 h2 h3 h4
    have ht := h1 t (List.mem_cons_self _ _)
    have h1' : ∀ x ∈ rest, x.children = none := fun x hx => h1 x (List.mem_cons_of_mem _ hx)
    by_cases hsec : t.kind ∈ sectionKinds
    · simp only [nestGo, hsec, if_true, reduceIte] at h4
      refine ih _ _ _ h1' ?_ (by simp [Tok.listWellSectioned]) h4
      intro pr hpr
      rcases List.mem_cons.mp hpr with hh | hh
      · subst hh
        exact ⟨hsec, h3⟩
      · exact h2 _ hh
    · by_cases hcl : t.kind = "/".data
      · simp only [nestGo] at h4
        rw [if_neg hsec, if_pos hcl] at h4
        cases stack with
        | nil => simp at h4
        | cons pr stack' =>
          obtain ⟨op, parentAcc⟩ := pr
          obtain ⟨hk, hp⟩ := h2 _ (List.mem_cons_self _ _)
          simp only at h4
          refine ih _ _ _ h1' ?_ ?_ h4
          · intro q hq
            exact h2 q (List.mem_cons_of_mem _ hq)
          · rw [listWellSectioned_append]
            obtain ⟨k, p, a, b, c, o⟩ := op
            simp only at hk hp
            rw [hp]
            simp [listWellSectioned_cons, Tok.listWellSectioned,
              wellSectioned_section k p a b acc (some t.start) hk h3]
      · simp only [nestGo, hsec, hcl, if_false, reduceIte] at h4
        refine ih _ _ _ h1' h2 ?_ h4
        rw [listWellSectioned_append]
        simp [listWellSectioned_cons, Tok.listWellSectioned, wellSectioned_of_none t ht, h3]

/-- C2 counterexample: register `foo` (the tag list becomes
`builtinTagList ++ [foo]`, exactly what `late.addTokenHandler` builds) and
parse a balanced `foo` section.  Contrary to the claim, `foo` is not
pushed onto the sections stack — the switch only pushes
`if|each|get|promise` — so the `/foo` close finds an empty stack and the
parser throws (`none`) instead of balancing the pair. -/
theorem registered_section_pair_crashes :
    parseTemplate fooTagList "t".data "\x7b\x7bfoo x\x7d\x7dy\x7b\x7b/foo\x7d\x7d".data = none ∧
    "foo".data ∉ sectionKinds :=
  ⟨rfl, by decide⟩

/-- C2 amended: after `addTokenHandler('foo', fn)` the parser does
recognize `foo` as the token kind (the tag pattern is rebuilt from the
extended list), but the section-opener set stays exactly
`{if, each, get, promise}`: a registered kind is never pushed onto the
sections stack, and the nest phase attaches child lists (field 4) only to
tokens of those four kinds — at any depth — as the second conjunct states
for every token list the parse loop can produce (all with field 4 unset).
Using `{{k …}}…{{/k}}` instead reaches the unopened-section branch, which
throws (see the counterexample). -/
theorem registered_kind_recognized_not_nested (ts out : List Tok)
    (h1 : ∀ t ∈ ts, t.children.isNone = true) (h2 : nestTokens ts = some out) :
    parseTemplate fooTagList "t".data "\x7b\x7bfoo x\x7d\x7d".data =
      some ([mkTok "foo".data "x".data 0 9], []) ∧
    Tok.listWellSectioned out = true := by
  constructor
  · rfl
  · refine nestGo_ws ts [] [] out ?_ (by simp) (by simp [Tok.listWellSectioned]) h2
    intro t ht
    simpa [Option.isNone_iff_eq_none] using h1 t ht

theorem registered_kind_recognized_not_nested_witness :
    (∀ t ∈ [mkTok "if".data "x".data 0 8, mkTok "/".data "if".data 8 15],
      t.children.isNone = true) ∧
    nestTokens [mkTok "if".data "x".data 0 8, mkTok "/".data "if".data 8 15] =
      some [⟨"if".data, "x".data, 0, 8, some [], some 8⟩] ∧
    (parseTemplate fooTagList "t".data "\x7b\x7bfoo x\x7d\x7d".data =
        some ([mkTok "foo".data "x".data 0 9], []) ∧
      Tok.listWellSectioned [⟨"if".data, "x".data, 0, 8, some [], some 8⟩] = true) :=
  ⟨by decide, rfl,
    registered_kind_recognized_not_nested
      [mkTok "if".data "x".data 0 8, mkTok "/".data "if".data 8 15]
      [⟨"if".data, "x".data, 0, 8, some [], some 8⟩] (by decide) (by rfl)⟩

theorem eachArrayGo_spec : ∀ (elems : List JSVal) (x : Nat),
    (∀ v ∈ elems, v.isNullOrArray = false) →
    eachArrayGo x elems =
      some (mapWithIndex eachViewOf x elems, mapWithIndex eachElemAfter x elems) := by
  intro elems
  induction elems with
  | nil => intro x _; rfl
  | cons v rest ih =>
    intro x h
    have hv := h v (List.mem_cons_self _ _)
    have hr : ∀ w ∈ rest, w.isNullOrArray = false :=
      fun w hw => h w (List.mem_cons_of_mem _ hw)
    cases v with
    | null => exact absurd hv (by simp [JSVal.isNullOrArray])
    | arrV es => exact absurd hv (by simp [JSVal.isNullOrArray])
    | undef =>
      simp [eachArrayGo, eachArrayStep, ih (x + 1) hr, mapWithIndex, eachViewOf, eachElemAfter]
    | boolV b =>
      simp [eachArrayGo, eachArrayStep, ih (x + 1) hr, mapWithIndex, eachViewOf, eachElemAfter]
    | numV n =>
      simp [eachArrayGo, eachArrayStep, ih (x + 1) hr, mapWithIndex, eachViewOf, eachElemAfter]
    | strV s =>
      simp [eachArrayGo, eachArrayStep, ih (x + 1) hr, mapWithIndex, eachViewOf, eachElemAfter]
    | objV fs =>
      simp [eachArrayGo, eachArrayStep, ih (x + 1) hr, mapWithIndex, eachViewOf, eachElemAfter]

/-- C9 amended: over an array whose elements are neither `null` nor nested
arrays, the `each` array loop pushes, for each object element, that very
element with `$index` written onto it — the caller's array slot now holds
the mutated object, visible after `render` returns (second component of the
result pair, which models the in-place mutation) — and for each
non-object element a fresh `{$index, $value}` wrapper, the caller's slot
left unchanged (`eachElemAfter` is the identity there).  A `null` element
instead makes the loop throw (counterexample), and an array element gets a
property write the model cannot represent, so both are excluded by the
hypothesis. -/
theorem each_array_mutates_objects (elems : List JSVal)
    (h : ∀ v ∈ elems, v.isNullOrArray = false) :
    eachArrayViews elems =
      some (mapWithIndex eachViewOf 0 elems, mapWithIndex eachElemAfter 0 elems) :=
  eachArrayGo_spec elems 0 h

theorem each_array_mutates_objects_witness :
    (∀ v ∈ [JSVal.objV [("a".data, JSVal.numV 1)], JSVal.numV 5],
      v.isNullOrArray = false) ∧
    eachArrayViews [JSVal.objV [("a".data, JSVal.numV 1)], JSVal.numV 5] =
      some (mapWithIndex eachViewOf 0 [JSVal.objV [("a".data, JSVal.numV 1)], JSVal.numV 5],
        mapWithIndex eachElemAfter 0 [JSVal.objV [("a".data, JSVal.numV 1)], JSVal.numV 5]) :=
  ⟨by decide, each_array_mutates_objects _ (by decide)⟩

theorem ocellSim_refl : ∀ c : Option Cell, ocellSim c c := by
  intro c
  cases c with
  | none => trivial
  | some cc => cases cc <;> simp [ocellSim, cellSim, valSim]

theorem ocellSim_shape : ∀ p q, ocellSim p q →
    p = q ∨ ∃ x y, p = some (Cell.valC x) ∧ q = some (Cell.valC y) ∧ valSim x y := by
  intro p q h
  cases p with
  | none =>
    cases q with
    | none => exact Or.inl rfl
    | some c => exact absurd h (by simp [ocellSim])
  | some c =>
    cases q with
    | none => exact absurd h (by simp [ocellSim])
    | some c2 =>
      cases c with
      | sepC s =>
        cases c2 with
        | sepC s2 =>
          left
          have hs : s = s2 := h
          rw [hs]
        | strC s2 => exact absurd h (by simp [ocellSim, cellSim])
        | valC y => exact absurd h (by simp [ocellSim, cellSim])
      | strC s =>
        cases c2 with
        | strC s2 =>
          left
          have hs : s = s2 := h
          rw [hs]
        | sepC s2 => exact absurd h (by simp [ocellSim, cellSim])
        | valC y => exact absurd h (by simp [ocellSim, cellSim])
      | valC x =>
        cases c2 with
        | valC y => exact Or.inr ⟨x, y, rfl, rfl, h⟩
        | sepC s2 => exact absurd h (by simp [ocellSim, cellSim])
        | strC s2 => exact absurd h (by simp [ocellSim, cellSim])

theorem ocellSim_valTrue {p q : Option Cell} (h : ocellSim p q) :
    (p = some (Cell.valC (some true))) ↔ (q = some (Cell.valC (some true))) := by
  rcases ocellSim_shape p q h with he | ⟨x, y, hx, hy, hs⟩
  · rw [he]
  · subst hx
    subst hy
    simp only [Option.some_inj, Cell.valC.injEq]
    exact hs

theorem ocellSim_valC {x y : Option Bool} (h : valSim x y) :
    ocellSim (some (Cell.valC x)) (some (Cell.valC y)) := h

theorem ocellSim_sepEq {p q : Option Cell} (h : ocellSim p q) (t : Str) :
    (p = some (Cell.sepC t)) ↔ (q = some (Cell.sepC t)) := by
  rcases ocellSim_shape p q h with he | ⟨x, y, hx, hy, _⟩
  · rw [he]
  · subst hx
    subst hy
    simp

theorem cellVal_sim {p q : Option Cell} (h : ocellSim p q) :
    valSim (cellVal p) (cellVal q) := by
  rcases ocellSim_shape p q h with he | ⟨x, y, hx, hy, hs⟩
  · rw [he]
    exact Iff.rfl
  · subst hx
    subst hy
    simpa [cellVal] using hs

theorem valSim_jsAnd {x y : Option Bool} (v : Option Bool) (h : valSim x y) :
    valSim (jsAnd x v) (jsAnd y v) := by
  by_cases hx : x = some true
  · have hy : y = some true := h.mp hx
    simp [jsAnd, hx, hy]
    exact Iff.rfl
  · have hy : y ≠ some true := fun hh => hx (h.mpr hh)
    simp only [jsAnd, if_neg hx, if_neg hy]
    exact h

theorem valSim_beq {x y : Option Bool} (h : valSim x y) :
    (x == some true) = (y == some true) := by
  by_cases hx : x = some true
  · have hy : y = some true := h.mp hx
    simp [hx, hy]
  · have hy : y ≠ some true := fun hh => hx (h.mpr hh)
    simp [hx, hy]

theorem ifLoop_sim : ∀ (cells : List Cell) (lk : Str → JSVal) (p2 q2 p1 q1 : Option Cell),
    ocellSim p2 q2 → ocellSim p1 q1 →
    ifLoop lk p2 p1 cells = ifLoop lk q2 q1 cells := by
  intro cells
  induction cells with
  | nil => intro lk p2 q2 p1 q1 _ _; rfl
  | cons c rest ih =>
    intro lk p2 q2 p1 q1 h2 h1
    cases c with
    | sepC s =>
      have hiff := ocellSim_valTrue h1
      by_cases hc : p1 = some (Cell.valC (some true)) ∧ s = "||".data
      · have hc2 : q1 = some (Cell.valC (some true)) ∧ s = "||".data :=
          ⟨hiff.mp hc.1, hc.2⟩
        simp [ifLoop, hc, hc2]
      · have hc2 : ¬(q1 = some (Cell.valC (some true)) ∧ s = "||".data) :=
          fun hh => hc ⟨hiff.mpr hh.1, hh.2⟩
        simp only [ifLoop, if_neg hc, if_neg hc2]
        exact ih lk p1 q1 (some (Cell.sepC s)) (some (Cell.sepC s)) h1 (ocellSim_refl _)
    | valC v => simp [ifLoop]
    | strC s =>
      have hand := ocellSim_sepEq h1 "&&".data
      by_cases hA : p1 = some (Cell.sepC "&&".data)
      · have hA2 : q1 = some (Cell.sepC "&&".data) := hand.mp hA
        have hsim : valSim (jsAnd (cellVal p2) (evalOperand lk s))
            (jsAnd (cellVal q2) (evalOperand lk s)) := by
          by_cases hx : cellVal p2 = some true
          · have hy : cellVal q2 = some true := (cellVal_sim h2).mp hx
            simp [jsAnd, hx, hy]
            exact Iff.rfl
          · have hy : cellVal q2 ≠ some true := fun hh => hx ((cellVal_sim h2).mpr hh)
            simp only [jsAnd, if_neg hx, if_neg hy]
            exact cellVal_sim h2
        cases rest with
        | nil =>
          simp only [ifLoop, if_pos hA, if_pos hA2]
          exact valSim_beq hsim
        | cons c2 rest2 =>
          simp only [ifLoop, if_pos hA, if_pos hA2]
          exact ih lk p1 q1 _ _ h1 (by simpa [ocellSim, cellSim] using hsim)
      · have hA2 : q1 ≠ some (Cell.sepC "&&".data) := fun hh => hA (hand.mpr hh)
        cases rest with
        | nil => simp only [ifLoop, if_neg hA, if_neg hA2]
        | cons c2 rest2 =>
          simp only [ifLoop, if_neg hA, if_neg hA2]
          exact ih lk p1 q1 _ _ h1 (by simp [ocellSim, cellSim, valSim])

/-- C7: a three-part conditional sub-expression whose operator is not one
of `===`, `!==`, `>`, `>=`, `<`, `<=` — in particular `==` or `!=`, which
the comparison split pattern does accept — makes `handleMultiPartIf` report
an error (second component `true`) and return `undefined` (`none`), the
sub-expression's value in `evalOperand` is that `undefined`, and the `if`
fold treats it exactly like a `false` sub-expression: replacing the cell by
the literal `false` leaves the whole loop's outcome unchanged, whatever
came before (`p2`, `p1`) or after (`rest`). -/
theorem bad_operator_undefined_and_falsy (lk : Str → JSVal) (a op b s : Str)
    (p2 p1 : Option Cell) (rest : List Cell)
    (h1 : op ∉ recognizedOps) (h2 : splitKeep compSeps s = [a, op, b]) :
    Writer.handleMultiPartIf lk [a, op, b] = (none, true) ∧
    evalOperand lk s = none ∧
    ifLoop lk p2 p1 (Cell.strC s :: rest) =
      ifLoop lk p2 p1 (Cell.strC "false".data :: rest) := by
  simp only [recognizedOps, List.map_cons, List.map_nil, List.mem_cons,
    List.not_mem_nil, or_false, not_or] at h1
  obtain ⟨n1, n2, n3, n4, n5, n6⟩ := h1
  have hmp : Writer.handleMultiPartIf lk [a, op, b] = (none, true) := by
    simp [Writer.handleMultiPartIf, List.getD, n1, n2, n3, n4, n5, n6]
  have hev : evalOperand lk s = none := by
    simp [evalOperand, h2, hmp]
  have hf : evalOperand lk "false".data = some false := rfl
  refine ⟨hmp, hev, ?_⟩
  cases rest with
  | nil =>
    have step1 : ifLoop lk p2 p1 [Cell.strC s] =
        ((if p1 = some (Cell.sepC "&&".data) then jsAnd (cellVal p2) (evalOperand lk s)
          else evalOperand lk s) == some true) := rfl
    have step2 : ifLoop lk p2 p1 [Cell.strC "false".data] =
        ((if p1 = some (Cell.sepC "&&".data) then jsAnd (cellVal p2) (evalOperand lk "false".data)
          else evalOperand lk "false".data) == some true) := rfl
    rw [step1, step2, hev, hf]
    by_cases hA : p1 = some (Cell.sepC "&&".data)
    · simp only [if_pos hA]
      by_cases hC : cellVal p2 = some true
      · simp [jsAnd, hC]
      · simp [jsAnd, hC]
    · simp [if_neg hA]
  | cons c2 rest2 =>
    have step1 : ifLoop lk p2 p1 (Cell.strC s :: c2 :: rest2) =
        ifLoop lk p1 (some (Cell.valC
          (if p1 = some (Cell.sepC "&&".data) then jsAnd (cellVal p2) (evalOperand lk s)
           else evalOperand lk s))) (c2 :: rest2) := rfl
    have step2 : ifLoop lk p2 p1 (Cell.strC "false".data :: c2 :: rest2) =
        ifLoop lk p1 (some (Cell.valC
          (if p1 = some (Cell.sepC "&&".data) then jsAnd (cellVal p2) (evalOperand lk "false".data)
           else evalOperand lk "false".data))) (c2 :: rest2) := rfl
    rw [step1, step2, hev, hf]
    refine ifLoop_sim _ lk p1 p1 _ _ (ocellSim_refl _) (ocellSim_valC ?_)
    by_cases hA : p1 = some (Cell.sepC "&&".data)
    · simp only [if_pos hA]
      by_cases hC : cellVal p2 = some true
      · simp [jsAnd, hC, valSim]
      · simp only [jsAnd, if_neg hC]
        exact Iff.rfl
    · simp only [if_neg hA]
      simp [valSim]

theorem bad_operator_undefined_and_falsy_witness :
    "==".data ∉ recognizedOps ∧
    splitKeep compSeps "1==2".data = ["1".data, "==".data, "2".data] ∧
    (Writer.handleMultiPartIf emptyLookup ["1".data, "==".data, "2".data] = (none, true) ∧
      evalOperand emptyLookup "1==2".data = none ∧
      ifLoop emptyLookup none none [Cell.strC "1==2".data] =
        ifLoop emptyLookup none none [Cell.strC "false".data]) :=
  ⟨by decide, rfl,
    bad_operator_undefined_and_falsy emptyLookup "1".data "==".data "2".data "1==2".data
      none none [] (by decide) rfl⟩

theorem ifLoop_chains_aux (lk : Str → JSVal) :
    ∀ (rest : List (SepTok × Str)) (acc : Option Bool) (junk : Option Cell)
      (sep : SepTok) (v : Str),
      ifLoop lk junk (some (Cell.valC acc))
        (Cell.sepC sep.text :: Cell.strC v :: tailCells rest) =
        chainsEval lk acc ((sep, v) :: rest) := by
  intro rest
  induction rest with
  | nil =>
    intro acc junk sep v
    have hsep : ifLoop lk junk (some (Cell.valC acc))
        (Cell.sepC sep.text :: Cell.strC v :: tailCells []) =
        (if some (Cell.valC acc) = some (Cell.valC (some true)) ∧ sep.text = "||".data
         then true
         else ifLoop lk (some (Cell.valC acc)) (some (Cell.sepC sep.text))
           (Cell.strC v :: tailCells [])) := rfl
    have hop : ifLoop lk (some (Cell.valC acc)) (some (Cell.sepC sep.text))
        (Cell.strC v :: tailCells []) =
        ((if (some (Cell.sepC sep.text) : Option Cell) = some (Cell.sepC "&&".data)
          then jsAnd acc (evalOperand lk v) else evalOperand lk v) == some true) := rfl
    rw [hsep, hop]
    cases sep with
    | andS =>
      have hpos : (some (Cell.sepC SepTok.andS.text) : Option Cell) =
          some (Cell.sepC "&&".data) := rfl
      rw [if_neg (by intro hh; exact absurd hh.2 (by decide)), if_pos hpos]
      rfl
    | orS =>
      by_cases hacc : acc = some true
      · rw [if_pos ⟨by rw [hacc], rfl⟩]
        subst hacc
        rfl
      · rw [if_neg (fun hh => hacc (by simpa using hh.1)), if_neg (by decide)]
        have hb : (acc == some true) = false := by
          simpa using hacc
        show (evalOperand lk v == some true) = chainsEval lk acc [(SepTok.orS, v)]
        have hch : chainsEval lk acc [(SepTok.orS, v)] =
            if acc == some true then true else chainsEval lk (evalOperand lk v) [] := rfl
        rw [hch, hb]
        rfl
  | cons p rest2 ih =>
    obtain ⟨sep2, w⟩ := p
    intro acc junk sep v
    have hsep : ifLoop lk junk (some (Cell.valC acc))
        (Cell.sepC sep.text :: Cell.strC v :: tailCells ((sep2, w) :: rest2)) =
        (if some (Cell.valC acc) = some (Cell.valC (some true)) ∧ sep.text = "||".data
         then true
         else ifLoop lk (some (Cell.valC acc)) (some (Cell.sepC sep.text))
           (Cell.strC v :: tailCells ((sep2, w) :: rest2))) := rfl
    have hop : ifLoop lk (some (Cell.valC acc)) (some (Cell.sepC sep.text))
        (Cell.strC v :: tailCells ((sep2, w) :: rest2)) =
        ifLoop lk (some (Cell.sepC sep.text))
          (some (Cell.valC
            (if (some (Cell.sepC sep.text) : Option Cell) = some (Cell.sepC "&&".data)
             then jsAnd acc (evalOperand lk v) else evalOperand lk v)))
          (tailCells ((sep2, w) :: rest2)) := rfl
    rw [hsep, hop]
    cases sep with
    | andS =>
      have hpos : (some (Cell.sepC SepTok.andS.text) : Option Cell) =
          some (Cell.sepC "&&".data) := rfl
      rw [if_neg (by intro hh; exact absurd hh.2 (by decide)), if_pos hpos]
      have htc : tailCells ((sep2, w) :: rest2) =
          Cell.sepC sep2.text :: Cell.strC w :: tailCells rest2 := rfl
      rw [htc, ih (jsAnd acc (evalOperand lk v)) (some (Cell.sepC SepTok.andS.text)) sep2 w]
      rfl
    | orS =>
      by_cases hacc : acc = some true
      · rw [if_pos ⟨by rw [hacc], rfl⟩]
        subst hacc
        rfl
      · rw [if_neg (fun hh => hacc (by simpa using hh.1)), if_neg (by decide)]
        have htc : tailCells ((sep2, w) :: rest2) =
            Cell.sepC sep2.text :: Cell.strC w :: tailCells rest2 := rfl
        rw [htc, ih (evalOperand lk v) (some (Cell.sepC SepTok.orS.text)) sep2 w]
        have hb : (acc == some true) = false := by
          simpa using hacc
        have hch : chainsEval lk acc ((SepTok.orS, v) :: (sep2, w) :: rest2) =
            if acc == some true then true
            else chainsEval lk (evalOperand lk v) ((sep2, w) :: rest2) := rfl
        rw [hch, hb]
        rfl

/-- C3 amended: the multi-part `if` loop is not a flat left-to-right fold.
It evaluates with `&&` binding tighter than `||`: an accumulator runs
through each `&&`-chain (`a && b` still yields the conjunction on the
resolved values), but on reaching a `||` separator whose accumulated value
is exactly `true` the whole condition short-circuits to `true`, skipping
everything after it — including later `&&` parts; otherwise the
accumulator restarts after the `||`.  The condition holds iff the final
accumulator is `true` (`chainsEval`).  In particular `a || b && c` with
`a` true decides the body as `true` regardless of `c` (see the
counterexample), not as `(a ∨ b) ∧ c`. -/
theorem ifLoop_eq_chainsEval (lk : Str → JSVal) (v0 : Str) (rest : List (SepTok × Str)) :
    ifLoop lk none none (altCells v0 rest) = chainsEval lk (evalOperand lk v0) rest := by
  cases rest with
  | nil => rfl
  | cons p rest2 =>
    obtain ⟨sep, w⟩ := p
    have step : ifLoop lk none none (altCells v0 ((sep, w) :: rest2)) =
        ifLoop lk none (some (Cell.valC (evalOperand lk v0)))
          (Cell.sepC sep.text :: Cell.strC w :: tailCells rest2) := rfl
    rw [step]
    exact ifLoop_chains_aux lk rest2 (evalOperand lk v0) none sep w
